import Mathlib

/-!
# Verification of the SoccerNet annotation ingestion / caching / export engine

Shallow embedding of `custom_soccernet_dataset.py` (class `SoccerNetDataset`):
`get_img_files`, `cache_labels`, `get_labels`, `to_coco`, `visualize_sample`.

Modelling conventions:
* Python floats are modelled by `ℚ` (exact arithmetic; the geometry here is
  pure field arithmetic, so every identity below is exact over `ℚ`).
* Python string comparison (used by `sorted`) is lexicographic comparison of
  code points, modelled by `≤` on `String.data : List Char`.
* JSON dictionaries with optional keys (`bbox.get("w", 0)`, ...) are modelled
  by structures with `Option` fields and `Option.getD`.
* Filesystem state and the persisted cache file are passed as explicit values;
  `cv2.imread` is passed as an oracle `String → Bool` (decode success).
* Exceptions are modelled by `Except`; functions that the source guarantees
  not to raise are total Lean functions.
* The cache helpers `get_hash`, `load_dataset_cache_file` and
  `save_dataset_cache_file` live in the `utils` module of the repository, which is
  not part of the sources at hand; they are modelled from the spec (marked
  `Modelled from the spec:` below).
-/

namespace SoccerNet

/-- Python string order (code-point lexicographic), used by `sorted(...)`. -/
def strLe (s t : String) : Prop := s.data ≤ t.data

instance : DecidableRel strLe := fun s t => by
  unfold strLe; infer_instance

/-- The constant `DATASET_CACHE_VERSION = "1.0.3"` from the source. -/
def DATASET_CACHE_VERSION : String := "1.0.3"

/-- The `bbox_image` JSON object of one annotation: all keys optional, read
with `bbox.get(key, 0)` / `bbox.get(key, 0.0)` in the source. -/
structure BBoxDict where
  x_center : Option ℚ := none
  y_center : Option ℚ := none
  x : Option ℚ := none
  y : Option ℚ := none
  w : Option ℚ := none
  h : Option ℚ := none
deriving DecidableEq, Repr

/-- One entry of the JSON `annotations` array (consumed fields only).
`bbox_image = none` models both an absent key and an empty dict
(`ann.get("bbox_image", {})` followed by `if not bbox: continue`). -/
structure RawAnn where
  image_id : ℤ
  category_id : ℤ
  bbox_image : Option BBoxDict
deriving DecidableEq, Repr

/-- One entry of the JSON `images` array (consumed fields only). -/
structure ImgInfo where
  image_id : ℤ
  file_name : String
  height : ℚ
  width : ℚ
deriving DecidableEq, Repr

/-- A normalized center-format box `(x_center, y_center, w, h)`. -/
structure Box where
  x_c : ℚ
  y_c : ℚ
  w : ℚ
  h : ℚ
deriving DecidableEq, Repr

/-- One label dictionary appended to `x["labels"]` by `cache_labels`
(the constant fields `segments = []`, `keypoints = None`,
`bbox_format = "xywh"` are omitted; `normalized` is kept because `to_coco`
and `visualize_sample` branch on it). `shape` is `(height, width)`. -/
structure LabelRecord where
  im_file : String
  shape : ℚ × ℚ
  cls : List ℤ
  bboxes : List Box
  normalized : Bool
deriving DecidableEq, Repr

instance : Inhabited LabelRecord :=
  ⟨⟨"", (0, 0), [], [], true⟩⟩

/-- Lines 201–227 of the source: processing of one raw annotation for a frame
of dimensions `width × height`. Returns `none` when the annotation is skipped
(no/empty `bbox_image`, or non-positive final width/height), otherwise the
`(category_id, box)` pair appended to `bboxes`. -/
def processAnn (width height : ℚ) (ann : RawAnn) : Option (ℤ × Box) :=
  match ann.bbox_image with
  | none => none
  | some bbox =>
    let x_center := bbox.x_center.getD 0
    let y_center := bbox.y_center.getD 0
    let bbox_w := bbox.w.getD 0
    let bbox_h := bbox.h.getD 0
    -- `if bbox_w > 1 or bbox_h > 1:` — absolute-pixel branch
    let vals : ℚ × ℚ × ℚ × ℚ :=
      if 1 < bbox_w ∨ 1 < bbox_h then
        ((bbox.x.getD 0 + bbox_w / 2) / width,
         (bbox.y.getD 0 + bbox_h / 2) / height,
         bbox_w / width, bbox_h / height)
      else
        (x_center, y_center, bbox_w, bbox_h)
    -- `if bbox_w <= 0 or bbox_h <= 0: continue`
    if vals.2.2.1 ≤ 0 ∨ vals.2.2.2 ≤ 0 then none
    else some (ann.category_id, ⟨vals.1, vals.2.1, vals.2.2.1, vals.2.2.2⟩)

/-- One scanned frame image file: full path and file name
(`img_path.name` in the source). -/
structure Frame where
  path : String
  name : String
deriving DecidableEq, Repr

/-- Line 176: `img_info = first info in data["images"] with info["file_name"] == file_name`. -/
def findInfo (images : List ImgInfo) (file_name : String) : Option ImgInfo :=
  images.find? (fun info => info.file_name = file_name)

/-- Line 191: `img_annotations[image_id]`, the annotations of the JSON file whose
`image_id` matches, in file order (the `defaultdict` grouping preserves the
order of `data["annotations"]`). -/
def annsFor (annotations : List RawAnn) (image_id : ℤ) : List RawAnn :=
  annotations.filter (fun a => a.image_id = image_id)

/-- Outcome of processing one frame inside a parsed sequence
(lines 170–247 of the source). -/
inductive FrameResult where
  | missing
  | empty
  | label (rec : LabelRecord)
deriving DecidableEq, Repr

/-- Lines 170–247: one frame of a sequence whose JSON parsed successfully. -/
def processFrame (images : List ImgInfo) (annotations : List RawAnn)
    (f : Frame) : FrameResult :=
  match findInfo images f.name with
  | none => .missing
  | some info =>
    let anns := annsFor annotations info.image_id
    if anns.isEmpty then .empty
    else
      let pairs := anns.filterMap (processAnn info.width info.height)
      if pairs.isEmpty then .empty
      else .label
        { im_file := f.path
          shape := (info.height, info.width)
          cls := pairs.map Prod.fst
          bboxes := pairs.map Prod.snd
          normalized := true }

/-- Annotation-side state of one sequence, as `cache_labels` sees it:
`missing` — no `<seq>.json` next to the sequence directory;
`corrupt` — opening/parsing/processing the JSON raises (the whole `try`
body fails before any frame of the sequence is processed);
`parsed` — the JSON loaded, with its `images` and `annotations` arrays. -/
inductive SeqAnn where
  | missing
  | corrupt (err : String)
  | parsed (images : List ImgInfo) (annotations : List RawAnn)
deriving DecidableEq, Repr

/-- One sequence as grouped by `cache_labels` from `self.im_files`
(`img_by_sequence`): directory name, its frames in scan order, and its
annotation state. -/
structure SeqInput where
  name : String
  frames : List Frame
  ann : SeqAnn
deriving DecidableEq, Repr

/-- The counters `nf, nm, ne, nc` of `cache_labels`
(found, missing, empty, corrupt). -/
structure Stats where
  nf : Nat
  nm : Nat
  ne : Nat
  nc : Nat
deriving DecidableEq, Repr

/-- Accumulator of the `cache_labels` main loop: the growing `x["labels"]`,
the counters and the `msgs` list. -/
structure BuildAcc where
  labels : List LabelRecord
  stats : Stats
  msgs : List String
deriving DecidableEq, Repr

/-- Lines 150–251: the body of the main loop of `cache_labels` for one
sequence, starting from accumulator `acc`. -/
def processSeq (acc : BuildAcc) (s : SeqInput) : BuildAcc :=
  match s.ann with
  | .missing =>
    { acc with
      msgs := acc.msgs ++ ["Missing JSON file for sequence " ++ s.name]
      stats := { acc.stats with nm := acc.stats.nm + s.frames.length } }
  | .corrupt err =>
    { acc with
      msgs := acc.msgs ++ ["Error processing " ++ s.name ++ ": " ++ err]
      stats := { acc.stats with nc := acc.stats.nc + 1 } }
  | .parsed images annotations =>
    s.frames.foldl
      (fun a f =>
        match processFrame images annotations f with
        | .missing => { a with stats := { a.stats with nm := a.stats.nm + 1 } }
        | .empty => { a with stats := { a.stats with ne := a.stats.ne + 1 } }
        | .label rec =>
          { a with
            labels := a.labels ++ [rec]
            stats := { a.stats with nf := a.stats.nf + 1 } })
      acc

/-- Line 150: `sorted(img_by_sequence.keys())`, the sequences in code-point order of
their names (Python `sorted` is a stable sort by `≤`). -/
def sortSeqs (seqs : List SeqInput) : List SeqInput :=
  List.insertionSort (fun a b => strLe a.name b.name) seqs

/-- The list `self.im_files`, the flat scanned frame-path list, in scan order. -/
def imFiles (seqs : List SeqInput) : List String :=
  seqs.flatMap (fun s => s.frames.map Frame.path)

/-- Modelled from the spec: `get_hash` (from the dataset `utils` module of the repository, a module
module, absent from the sources at hand) — "a content fingerprint computed
over the ordered list of frame file paths". Modelled as an exact rolling
fingerprint of the ordered path list. -/
def get_hash (files : List String) : Nat :=
  files.foldl
    (fun acc s => s.data.foldl (fun a c => a * 1000003 + c.toNat + 1) (acc * 1000003))
    7

/-- The persisted cache structure (`save_dataset_cache_file` stores the
`cache_labels` dictionary together with `version`; `load_dataset_cache_file`
returns it). `results = (nf, nm, ne, nc, total_frames)`. -/
structure CacheFile where
  version : String
  hash : Nat
  labels : List LabelRecord
  results : Nat × Nat × Nat × Nat × Nat
  msgs : List String
deriving DecidableEq, Repr

/-- Lines 118–269: `cache_labels`. Groups are processed in sorted
sequence-name order; the hash is computed over `self.im_files` in scan order;
`results = (nf, nm, ne, nc, len(self.im_files))`. The returned structure
carries `version` because `save_dataset_cache_file` adds it to the very
dictionary it persists (spec §3, CacheFile). -/
def cache_labels (seqs : List SeqInput) : CacheFile :=
  let acc := (sortSeqs seqs).foldl processSeq ⟨[], ⟨0, 0, 0, 0⟩, []⟩
  { version := DATASET_CACHE_VERSION
    hash := get_hash (imFiles seqs)
    labels := acc.labels
    results := (acc.stats.nf, acc.stats.nm, acc.stats.ne, acc.stats.nc,
      (imFiles seqs).length)
    msgs := acc.msgs }

/-- Modelled from the spec: the save step of `cache_labels`
(`save_dataset_cache_file`, line 262) — the cache file is persisted
unconditionally on the straight-line path, also when zero labels were found.
The write effect is the returned value. -/
def cache_labels_written (seqs : List SeqInput) : Option CacheFile :=
  some (cache_labels seqs)

/-- Lines 280–285 of `get_labels`: the cache is accepted iff it loaded and
`version` equals `DATASET_CACHE_VERSION` and `hash` equals the freshly
recomputed `get_hash(self.im_files)`. `stored = none` models both an absent
and a structurally malformed cache file (`load_dataset_cache_file` raising
`FileNotFoundError`/`AttributeError`). -/
def cacheOk (stored : Option CacheFile) (files : List String) : Bool :=
  match stored with
  | none => false
  | some c => c.version = DATASET_CACHE_VERSION ∧ c.hash = get_hash files

/-- The load-or-build step of `get_labels` (lines 280–285): the cache in use
afterwards, paired with the `exists` flag (`true` iff the stored cache was
reused, `false` iff `cache_labels` rebuilt it). -/
def loadOrBuild (seqs : List SeqInput) (stored : Option CacheFile) :
    CacheFile × Bool :=
  match stored with
  | some c =>
    if c.version = DATASET_CACHE_VERSION ∧ c.hash = get_hash (imFiles seqs)
    then (c, true)
    else (cache_labels seqs, false)
  | none => (cache_labels seqs, false)

/-- Successful result of `get_labels`: the label list, the reassigned
`self.im_files` (`[lb["im_file"] for lb in labels]`) and the `exists` flag. -/
structure LabelsOk where
  labels : List LabelRecord
  im_files : List String
  usedCache : Bool
deriving DecidableEq, Repr

/-- Lines 271–313: `get_labels`. The only raise on the embedded path is the
`RuntimeError` for an empty label list after load-or-build. -/
def get_labels (seqs : List SeqInput) (stored : Option CacheFile) :
    Except String LabelsOk :=
  let cache := loadOrBuild seqs stored
  if cache.1.labels.isEmpty then
    .error "No valid images found"
  else
    .ok ⟨cache.1.labels, cache.1.labels.map LabelRecord.im_file, cache.2⟩

/-- One immediate subdirectory of the split directory, as the filesystem
enumerates it: its name, and — if an `img1` subdirectory exists — the entry
names of that subdirectory, in filesystem enumeration order. -/
structure SeqDirFS where
  name : String
  img1 : Option (List String)
deriving DecidableEq, Repr

/-- The split directory handed to `get_img_files`: its path string and its
immediate subdirectories in filesystem enumeration order. -/
structure SplitFS where
  path : String
  dirs : List SeqDirFS
deriving DecidableEq, Repr

/-- Lines 104–109 of `get_img_files`: the files one sequence directory
contributes — nothing if `img1` does not exist, else its `*.jpg` entries
sorted by filename (`sorted(glob("*.jpg"))` over files of one directory
compares their names), as full paths. -/
def dirFiles (root : String) (d : SeqDirFS) : List String :=
  match d.img1 with
  | none => []
  | some entries =>
    (List.insertionSort strLe (entries.filter (fun n => n.endsWith ".jpg"))).map
      (fun n => root ++ "/" ++ d.name ++ "/img1/" ++ n)

/-- Lines 87–116: `get_img_files`. Sequence directories sorted by name
(`sorted(sequence_dirs)` on sibling paths compares their names), each
sorted `*.jpg` files of each directory concatenated. The `Bool` is the warning
flag: `true` iff the "No images found" warning was logged; the empty result
is returned normally either way. -/
def get_img_files (fs : SplitFS) : List String × Bool :=
  let dirs := List.insertionSort (fun a b => strLe a.name b.name) fs.dirs
  let img_files := dirs.flatMap (dirFiles fs.path)
  (img_files, img_files.isEmpty)

/-- Two views of the same sequence directory: equal names, and the same
`img1` entries up to filesystem enumeration order. -/
def DirEquiv (d1 d2 : SeqDirFS) : Prop :=
  d1.name = d2.name ∧
  ((d1.img1 = none ∧ d2.img1 = none) ∨
   (∃ a b, d1.img1 = some a ∧ d2.img1 = some b ∧ a.Perm b))

/-- Two views of the same split directory tree: equal paths, and the same
subdirectories up to enumeration order, each up to `DirEquiv`. -/
def SplitEquiv (t1 t2 : SplitFS) : Prop :=
  t1.path = t2.path ∧
  ∃ mid, t1.dirs.Perm mid ∧ List.Forall₂ DirEquiv mid t2.dirs

/-- Python `Path(s).name`, the final path component. -/
def baseName (s : String) : String := (s.splitOn "/").getLastD s

/-- Python `int(...)` on a number: truncation toward zero. -/
def pyInt (q : ℚ) : ℤ := if 0 ≤ q then q.floor else q.ceil

/-- One entry of the COCO `images` array (consumed fields only). -/
structure CocoImage where
  id : ℕ
  file_name : String
  height : ℤ
  width : ℤ
deriving DecidableEq, Repr

/-- One entry of the COCO `annotations` array (`segmentation = []` omitted). -/
structure CocoAnn where
  id : ℕ
  image_id : ℕ
  category_id : ℤ
  bbox : ℚ × ℚ × ℚ × ℚ
  area : ℚ
  iscrowd : ℕ
deriving DecidableEq, Repr

/-- One entry of the COCO `categories` array (`supercategory` is the constant
`"object"`). -/
structure CocoCat where
  id : ℤ
  name : String
deriving DecidableEq, Repr

/-- The COCO document built by `to_coco` (the constant `info`/`licenses`
fields are omitted). -/
structure CocoOut where
  categories : List CocoCat
  images : List CocoImage
  annotations : List CocoAnn
deriving DecidableEq, Repr

/-- Lines 349–358 of `to_coco`: one box to absolute top-left
`(x, y, w, h)`, given the frame `height`/`width` and the `normalized` flag. -/
def cocoBboxAbs (height width : ℚ) (normalized : Bool) (b : Box) :
    ℚ × ℚ × ℚ × ℚ :=
  if normalized then
    ((b.x_c - b.w / 2) * width, (b.y_c - b.h / 2) * height,
     b.w * width, b.h * height)
  else
    (b.x_c - b.w / 2, b.y_c - b.h / 2, b.w, b.h)

/-- Lines 347–371: the annotations of one label record, with the running
`ann_id` counter threaded through. -/
def annsOfLabel (img_id ann_id : ℕ) (height width : ℚ) (normalized : Bool) :
    List (ℤ × Box) → List CocoAnn
  | [] => []
  | (c, b) :: rest =>
    let bb := cocoBboxAbs height width normalized b
    { id := ann_id, image_id := img_id, category_id := c, bbox := bb,
      area := bb.2.2.1 * bb.2.2.2, iscrowd := 0 }
      :: annsOfLabel img_id (ann_id + 1) height width normalized rest

/-- Lines 332–371: the main loop of `to_coco` over the label list, with the
running `img_id` (`enumerate(labels, start=1)`) and `ann_id` counters. -/
def tocoLoop (img_id ann_id : ℕ) : List LabelRecord → List CocoImage × List CocoAnn
  | [] => ([], [])
  | l :: rest =>
    let h := l.shape.1
    let w := l.shape.2
    let img : CocoImage := ⟨img_id, baseName l.im_file, pyInt h, pyInt w⟩
    let anns := annsOfLabel img_id ann_id h w l.normalized (l.cls.zip l.bboxes)
    let r := tocoLoop (img_id + 1) (ann_id + anns.length) rest
    (img :: r.1, anns ++ r.2)

/-- Lines 315–391: `to_coco`. `names` models `self.data["names"].items()`
(insertion-ordered class-id/name pairs); the label list comes from
`get_labels`, whose `RuntimeError` propagates. The JSON write itself is
unconditional and its content is the returned document. -/
def to_coco (names : List (ℤ × String)) (seqs : List SeqInput)
    (stored : Option CacheFile) : Except String CocoOut :=
  match get_labels seqs stored with
  | .error e => .error e
  | .ok r =>
    let t := tocoLoop 1 1 r.labels
    .ok
      { categories := names.map (fun p => ⟨p.1, p.2⟩)
        images := t.1
        annotations := t.2 }

/-- Python `Path(im_file).with_suffix(".vis.jpg")` for the `.jpg` frame files the
engine produces. -/
def with_vis_suffix (s : String) : String :=
  if s.endsWith ".jpg" then s.dropRight 4 ++ ".vis.jpg" else s ++ ".vis.jpg"

/-- Lines 393–441: `visualize_sample`. `decode` is the `cv2.imread` success
oracle; the result is the path written (`save_path` or the derived
`.vis.jpg` path), `none` when the function bails out with a warning. The
`RuntimeError` of the inner `get_labels` call propagates (`Except.error`).
The `if not labels` guard of line 396 is kept although `get_labels` never
returns an empty list. -/
def visualize_sample (seqs : List SeqInput) (stored : Option CacheFile)
    (decode : String → Bool) (index : ℤ) (save_path : Option String) :
    Except String (Option String) :=
  match get_labels seqs stored with
  | .error e => .error e
  | .ok r =>
    let labels := r.labels
    if labels.isEmpty then .ok none
    else
      let label := labels.getD (index.emod labels.length).toNat default
      if decode label.im_file then
        .ok (some (save_path.getD (with_vis_suffix label.im_file)))
      else .ok none

/-- Total number of annotations `to_coco` emits for a label list. -/
def totalAnns (labels : List LabelRecord) : Nat :=
  (labels.map (fun l => (l.cls.zip l.bboxes).length)).sum

/-- Demo split: one sequence, one frame, one box kept as-is. -/
def demoSeqs : List SeqInput :=
  [⟨"SEQ-A", [⟨"t/SEQ-A/img1/1.jpg", "1.jpg"⟩],
     .parsed [⟨1, "1.jpg", 10, 10⟩]
       [⟨1, 0, some ⟨some 0, some 0, none, none, some 1, some 1⟩⟩]⟩]

/-- The label record `cache_labels demoSeqs` produces. -/
def demoRec : LabelRecord :=
  ⟨"t/SEQ-A/img1/1.jpg", (10, 10), [0], [⟨0, 0, 1, 1⟩], true⟩

/-- The `bbox_image` payload of the C2 counterexample: `w = 2` exceeds 1 but
`h = 1/2` does not. -/
def c2Bbox : BBoxDict :=
  { x_center := some (3/10), y_center := some (3/10),
    x := some 10, y := some 10, w := some 2, h := some (1/2) }

/-- A raw annotation carrying `c2Bbox`, on a 100×100 frame. -/
def c2Ann : RawAnn :=
  { image_id := 1, category_id := 3, bbox_image := some c2Bbox }

/-- A split directory tree with two sequences, as one filesystem enumeration
could list it. -/
def fsA : SplitFS :=
  ⟨"train", [⟨"S2", some ["b.jpg", "a.jpg"]⟩,
             ⟨"S1", some ["x.jpg", "readme.txt"]⟩]⟩

/-- The same tree under a different filesystem enumeration order. -/
def fsB : SplitFS :=
  ⟨"train", [⟨"S1", some ["readme.txt", "x.jpg"]⟩,
             ⟨"S2", some ["a.jpg", "b.jpg"]⟩]⟩

/-! ### Characterization of the `cache_labels` accumulator loop -/

/-- The label records one sequence contributes to `x["labels"]`. -/
def seqLabels (s : SeqInput) : List LabelRecord :=
  match s.ann with
  | .missing => []
  | .corrupt _ => []
  | .parsed images annotations =>
    s.frames.filterMap (fun f =>
      match processFrame images annotations f with
      | .label rec => some rec
      | _ => none)

/-- The diagnostic messages one sequence contributes to `msgs`. -/
def seqMsgs (s : SeqInput) : List String :=
  match s.ann with
  | .missing => ["Missing JSON file for sequence " ++ s.name]
  | .corrupt err => ["Error processing " ++ s.name ++ ": " ++ err]
  | .parsed _ _ => []

/-- Whether a sequence hits the `except` branch of `cache_labels`. -/
def seqCorrupt (s : SeqInput) : Bool :=
  match s.ann with
  | .corrupt _ => true
  | _ => false

theorem processSeq_characterization (acc : BuildAcc) (s : SeqInput) :
    (processSeq acc s).labels = acc.labels ++ seqLabels s ∧
    (processSeq acc s).stats.nf = acc.stats.nf + (seqLabels s).length ∧
    (processSeq acc s).stats.nc = acc.stats.nc + (if seqCorrupt s then 1 else 0) ∧
    (processSeq acc s).msgs = acc.msgs ++ seqMsgs s := by
  match s with
  | ⟨name, frames, .missing⟩ => simp [processSeq, seqLabels, seqMsgs, seqCorrupt]
  | ⟨name, frames, .corrupt err⟩ => simp [processSeq, seqLabels, seqMsgs, seqCorrupt]
  | ⟨name, frames, .parsed images annotations⟩ =>
    simp only [processSeq, seqLabels, seqMsgs, seqCorrupt]
    induction frames generalizing acc with
    | nil => simp
    | cons f rest ih =>
      simp only [List.foldl_cons, List.filterMap_cons]
      cases hf : processFrame images annotations f with
      | missing => simpa [hf] using ih _
      | empty => simpa [hf] using ih _
      | label rec =>
        have := ih { acc with
          labels := acc.labels ++ [rec]
          stats := { acc.stats with nf := acc.stats.nf + 1 } }
        simp only [hf] at this ⊢
        refine ⟨?_, ?_, ?_, ?_⟩ <;> simp [this.1, this.2.1, this.2.2.1, this.2.2.2] <;> omega

theorem foldl_processSeq_characterization (seqs : List SeqInput) (acc : BuildAcc) :
    (seqs.foldl processSeq acc).labels = acc.labels ++ seqs.flatMap seqLabels ∧
    (seqs.foldl processSeq acc).stats.nf =
      acc.stats.nf + (seqs.flatMap seqLabels).length ∧
    (seqs.foldl processSeq acc).stats.nc =
      acc.stats.nc + seqs.countP seqCorrupt ∧
    (seqs.foldl processSeq acc).msgs = acc.msgs ++ seqs.flatMap seqMsgs := by
  induction seqs generalizing acc with
  | nil => simp
  | cons s rest ih =>
    have hs := processSeq_characterization acc s
    have hr := ih (processSeq acc s)
    simp only [List.foldl_cons, List.flatMap_cons, List.countP_cons]
    refine ⟨?_, ?_, ?_, ?_⟩
    · rw [hr.1, hs.1, List.append_assoc]
    · rw [hr.2.1, hs.2.1]; simp [List.length_append]; omega
    · rw [hr.2.2.1, hs.2.2.1]; cases h : seqCorrupt s <;> simp [h] <;> omega
    · rw [hr.2.2.2, hs.2.2.2, List.append_assoc]

theorem cache_labels_labels (seqs : List SeqInput) :
    (cache_labels seqs).labels = (sortSeqs seqs).flatMap seqLabels :=
  by simpa [cache_labels] using (foldl_processSeq_characterization (sortSeqs seqs) ⟨[], ⟨0, 0, 0, 0⟩, []⟩).1

theorem cache_labels_nf (seqs : List SeqInput) :
    (cache_labels seqs).results.1 = (cache_labels seqs).labels.length := by
  have h := foldl_processSeq_characterization (sortSeqs seqs) ⟨[], ⟨0, 0, 0, 0⟩, []⟩
  simp only [cache_labels]
  simp [h.1, h.2.1]

theorem cache_labels_nc (seqs : List SeqInput) :
    (cache_labels seqs).results.2.2.2.1 = seqs.countP seqCorrupt := by
  have h := foldl_processSeq_characterization (sortSeqs seqs) ⟨[], ⟨0, 0, 0, 0⟩, []⟩
  have hperm : (sortSeqs seqs).Perm seqs := List.perm_insertionSort _ seqs
  simp only [cache_labels]
  simp [h.2.2.1, hperm.countP_eq]

theorem cache_labels_msgs (seqs : List SeqInput) :
    (cache_labels seqs).msgs = (sortSeqs seqs).flatMap seqMsgs := by
  have h := foldl_processSeq_characterization (sortSeqs seqs) ⟨[], ⟨0, 0, 0, 0⟩, []⟩
  simp only [cache_labels]
  simp [h.2.2.2]

/-! ### Claim theorems -/

/-- C1: for every split, if after the load-or-build step in `get_labels` the
resulting label list is empty, the call fails (`Except.error`, the
`RuntimeError` of line 300) and returns no partial result; if the label list
is non-empty, `get_labels` returns it (together with the reassigned
`im_files`) with no error — on the embedded path this is the only abort. -/
theorem get_labels_fatal_iff_empty (seqs : List SeqInput) (stored : Option CacheFile) :
    ((loadOrBuild seqs stored).1.labels = [] →
      get_labels seqs stored = .error "No valid images found") ∧
    ((loadOrBuild seqs stored).1.labels ≠ [] →
      get_labels seqs stored = .ok
        ⟨(loadOrBuild seqs stored).1.labels,
         ((loadOrBuild seqs stored).1.labels).map LabelRecord.im_file,
         (loadOrBuild seqs stored).2⟩) := by
  constructor
  · intro h
    simp [get_labels, h]
  · intro h
    simp [get_labels, List.isEmpty_iff, h]

/-- Witness for C1: the empty split builds an empty label list and
`get_labels` fails fatally on it; a concrete one-record cached split
succeeds with exactly that record. -/
theorem get_labels_fatal_iff_empty_witness :
    get_labels [] none = .error "No valid images found" :=
  (get_labels_fatal_iff_empty [] none).1 (by decide)

/-- C3: a persisted cache is reused by `get_labels` iff its `version` equals
`DATASET_CACHE_VERSION` and its `hash` equals the recomputed
`get_hash(self.im_files)`; every other condition (absent/malformed file
modelled by `stored = none`, or a version/hash mismatch) makes load-or-build
fall back to the `cache_labels` rebuild — a total function, so no error is
surfaced by the fallback itself. -/
theorem cache_reuse_iff (seqs : List SeqInput) (stored : Option CacheFile) :
    ((loadOrBuild seqs stored).2 = true ↔
      ∃ c, stored = some c ∧ c.version = DATASET_CACHE_VERSION ∧
        c.hash = get_hash (imFiles seqs)) ∧
    (∀ c, stored = some c → c.version = DATASET_CACHE_VERSION →
      c.hash = get_hash (imFiles seqs) → loadOrBuild seqs stored = (c, true)) ∧
    ((loadOrBuild seqs stored).2 = false →
      (loadOrBuild seqs stored).1 = cache_labels seqs) := by
  refine ⟨?_, ?_, ?_⟩
  · cases stored with
    | none => simp [loadOrBuild]
    | some c =>
      by_cases h : c.version = DATASET_CACHE_VERSION ∧ c.hash = get_hash (imFiles seqs)
      · simp [loadOrBuild, h]
      · simp only [loadOrBuild, if_neg h]
        simp only [Option.some.injEq]
        constructor
        · intro hfalse; cases hfalse
        · rintro ⟨c', rfl, hv, hh⟩
          exact absurd ⟨hv, hh⟩ h
  · rintro c rfl hv hh
    simp [loadOrBuild, hv, hh]
  · cases stored with
    | none => intro _; simp [loadOrBuild]
    | some c =>
      by_cases h : c.version = DATASET_CACHE_VERSION ∧ c.hash = get_hash (imFiles seqs)
      · simp [loadOrBuild, h]
      · simp [loadOrBuild, h]

/-- Witness for C3: a concrete stored cache whose version and hash both match
the empty split is reused as-is. -/
theorem cache_reuse_iff_witness :
    loadOrBuild [] (some ⟨"1.0.3", 7, [⟨"a.jpg", (1, 1), [0], [⟨0, 0, 1, 1⟩], true⟩],
      (1, 0, 0, 0, 0), []⟩) =
    (⟨"1.0.3", 7, [⟨"a.jpg", (1, 1), [0], [⟨0, 0, 1, 1⟩], true⟩],
      (1, 0, 0, 0, 0), []⟩, true) :=
  (cache_reuse_iff [] _).2.1 _ rfl (by decide) (by decide)

/-- C10: the `results` tuple of the structure built and persisted by
`cache_labels` is exactly `(found, missing, empty, corrupt, total_frames)`
with `found` equal to the length of the labels list and `total_frames` equal
to the number of scanned frame files; the cache file is written
unconditionally (also when zero labels were found — the fatal-empty failure
is raised later by `get_labels`, not here). -/
theorem cache_labels_results_invariant (seqs : List SeqInput) :
    (∃ nm ne nc, (cache_labels seqs).results =
      ((cache_labels seqs).labels.length, nm, ne, nc, (imFiles seqs).length)) ∧
    cache_labels_written seqs = some (cache_labels seqs) := by
  refine ⟨⟨(cache_labels seqs).results.2.1, (cache_labels seqs).results.2.2.1,
    (cache_labels seqs).results.2.2.2.1, ?_⟩, rfl⟩
  have h1 := cache_labels_nf seqs
  simp only [cache_labels] at h1 ⊢
  simp [← h1]

/-- C4: per-sequence failure tolerance of `cache_labels`. The label list is
the concatenation, over sequences in processing order, of the per-sequence
contributions (so the labels of every valid sequence are produced, a corrupt
sequence contributing nothing); the `corrupt` counter counts exactly the
sequences whose JSON processing raised; each such sequence appends its
diagnostic message to `msgs`; `cache_labels` is a total function, so no
per-sequence exception propagates. -/
theorem cache_labels_partial_failure (seqs : List SeqInput) :
    ((cache_labels seqs).labels = (sortSeqs seqs).flatMap seqLabels) ∧
    ((cache_labels seqs).results.2.2.2.1 = seqs.countP seqCorrupt) ∧
    (∀ s ∈ seqs, ∀ e, s.ann = .corrupt e →
      ("Error processing " ++ s.name ++ ": " ++ e) ∈ (cache_labels seqs).msgs) := by
  refine ⟨cache_labels_labels seqs, cache_labels_nc seqs, ?_⟩
  intro s hs e he
  rw [cache_labels_msgs]
  have hs' : s ∈ sortSeqs seqs := ((List.perm_insertionSort _ seqs).mem_iff).mpr hs
  refine List.mem_flatMap.mpr ⟨s, hs', ?_⟩
  simp [seqMsgs, he]

/-- Witness for C4: a split with one corrupt sequence and one valid sequence
records the diagnostic message of the corrupt sequence. -/
theorem cache_labels_partial_failure_witness :
    ("Error processing SEQ-B: boom") ∈
      (cache_labels
        [⟨"SEQ-A", [⟨"t/SEQ-A/img1/1.jpg", "1.jpg"⟩],
           .parsed [⟨1, "1.jpg", 10, 10⟩] [⟨1, 0, some ⟨some 0, some 0, none, none, some 1, some 1⟩⟩]⟩,
         ⟨"SEQ-B", [⟨"t/SEQ-B/img1/1.jpg", "1.jpg"⟩], .corrupt "boom"⟩]).msgs :=
  (cache_labels_partial_failure _).2.2
    ⟨"SEQ-B", [⟨"t/SEQ-B/img1/1.jpg", "1.jpg"⟩], .corrupt "boom"⟩
    (by simp) "boom" rfl

/-- If `processAnn` keeps an annotation, the kept box passed the
`bbox_w <= 0 or bbox_h <= 0` filter: its width and height are positive. -/
theorem processAnn_pos (width height : ℚ) (a : RawAnn) (c : ℤ) (b : Box)
    (h : processAnn width height a = some (c, b)) : 0 < b.w ∧ 0 < b.h := by
  unfold processAnn at h
  cases hbb : a.bbox_image with
  | none => rw [hbb] at h; cases h
  | some bbox =>
    rw [hbb] at h
    simp only at h
    split at h
    · split at h
      · cases h
      · next hpos =>
        push_neg at hpos
        cases h
        exact ⟨hpos.1, hpos.2⟩
    · split at h
      · cases h
      · next hpos =>
        push_neg at hpos
        cases h
        exact ⟨hpos.1, hpos.2⟩

/-- Reduction of `processFrame` on a matched, annotated frame with at least
one retained box. -/
theorem processFrame_label_of (images : List ImgInfo)
    (annotations : List RawAnn) (f : Frame) (info : ImgInfo)
    (hinfo : findInfo images f.name = some info)
    (hanns : (annsFor annotations info.image_id).isEmpty = false)
    (hne : ((annsFor annotations info.image_id).filterMap
      (processAnn info.width info.height)).isEmpty = false) :
    processFrame images annotations f = .label
      { im_file := f.path
        shape := (info.height, info.width)
        cls := ((annsFor annotations info.image_id).filterMap
          (processAnn info.width info.height)).map Prod.fst
        bboxes := ((annsFor annotations info.image_id).filterMap
          (processAnn info.width info.height)).map Prod.snd
        normalized := true } := by
  unfold processFrame
  rw [hinfo]
  simp [hanns, hne]

/-- Reduction of `processFrame` on a matched, annotated frame all of whose
boxes are dropped. -/
theorem processFrame_empty_of (images : List ImgInfo)
    (annotations : List RawAnn) (f : Frame) (info : ImgInfo)
    (hinfo : findInfo images f.name = some info)
    (hanns : (annsFor annotations info.image_id).isEmpty = false)
    (hall : (annsFor annotations info.image_id).filterMap
      (processAnn info.width info.height) = []) :
    processFrame images annotations f = .empty := by
  unfold processFrame
  rw [hinfo]
  simp [hanns, hall]

/-- If `processFrame` emits a record, it is built from the non-empty list of
retained `(category_id, box)` pairs of the matched image info. -/
theorem processFrame_label_inv (images : List ImgInfo)
    (annotations : List RawAnn) (f : Frame) (rec : LabelRecord)
    (h : processFrame images annotations f = .label rec) :
    ∃ info, findInfo images f.name = some info ∧
      (annsFor annotations info.image_id).filterMap
        (processAnn info.width info.height) ≠ [] ∧
      rec = { im_file := f.path
              shape := (info.height, info.width)
              cls := ((annsFor annotations info.image_id).filterMap
                (processAnn info.width info.height)).map Prod.fst
              bboxes := ((annsFor annotations info.image_id).filterMap
                (processAnn info.width info.height)).map Prod.snd
              normalized := true } := by
  unfold processFrame at h
  cases hinfo : findInfo images f.name with
  | none => rw [hinfo] at h; cases h
  | some info =>
    rw [hinfo] at h
    simp only at h
    split at h
    · cases h
    · split at h
      · cases h
      · next hpairs =>
        cases h
        exact ⟨info, rfl, by simpa [List.isEmpty_iff] using hpairs, rfl⟩

/-- C7: every box retained in a record produced by `cache_labels` has
positive width and height; `class_ids` and `boxes` are index-aligned; a
record is emitted for a frame iff at least one box survives the per-box
filter, and a matched, annotated frame whose boxes are all dropped is
classified `empty` (so it is excluded from the label list). -/
theorem cache_labels_record_invariants (seqs : List SeqInput) :
    (∀ rec ∈ (cache_labels seqs).labels,
      rec.cls.length = rec.bboxes.length ∧ rec.bboxes ≠ [] ∧
      ∀ b ∈ rec.bboxes, 0 < b.w ∧ 0 < b.h) ∧
    (∀ images annotations f info,
      findInfo images f.name = some info →
      annsFor annotations info.image_id ≠ [] →
      ((∃ rec, processFrame images annotations f = .label rec) ↔
        (annsFor annotations info.image_id).filterMap
          (processAnn info.width info.height) ≠ []) ∧
      ((annsFor annotations info.image_id).filterMap
          (processAnn info.width info.height) = [] →
        processFrame images annotations f = .empty)) := by
  constructor
  · intro rec hrec
    rw [cache_labels_labels] at hrec
    obtain ⟨s, _, hrec⟩ := List.mem_flatMap.mp hrec
    unfold seqLabels at hrec
    obtain ⟨name, frames, ann⟩ := s
    cases ann with
    | missing => simp at hrec
    | corrupt e => simp at hrec
    | parsed images annotations =>
      simp only [List.mem_filterMap] at hrec
      obtain ⟨f, _, hf⟩ := hrec
      cases hpf : processFrame images annotations f with
      | missing => rw [hpf] at hf; cases hf
      | empty => rw [hpf] at hf; cases hf
      | label rec' =>
        rw [hpf] at hf
        cases hf
        obtain ⟨info, _, hne, hrec⟩ := processFrame_label_inv _ _ _ _ hpf
        subst hrec
        refine ⟨by simp, by simpa using hne, ?_⟩
        intro b hb
        simp only [List.mem_map] at hb
        obtain ⟨⟨c, b'⟩, hmem, hb⟩ := hb
        cases hb
        obtain ⟨a, _, ha⟩ := List.mem_filterMap.mp hmem
        exact processAnn_pos _ _ _ _ _ ha
  · intro images annotations f info hinfo hanns
    have hanns' : (annsFor annotations info.image_id).isEmpty = false := by
      simpa [List.isEmpty_iff] using hanns
    constructor
    · constructor
      · rintro ⟨rec, hrec⟩
        obtain ⟨info', hinfo', hne, _⟩ := processFrame_label_inv _ _ _ _ hrec
        rw [hinfo] at hinfo'
        cases hinfo'
        exact hne
      · intro hne
        exact ⟨_, processFrame_label_of _ _ _ _ hinfo hanns'
          (by simpa [List.isEmpty_iff] using hne)⟩
    · intro hall
      exact processFrame_empty_of _ _ _ _ hinfo hanns' hall

/-- Witness for C7: the invariants hold for the concrete record the demo
split produces. -/
theorem cache_labels_record_invariants_witness :
    demoRec.cls.length = demoRec.bboxes.length ∧ demoRec.bboxes ≠ [] ∧
      ∀ b ∈ demoRec.bboxes, 0 < b.w ∧ 0 < b.h :=
  (cache_labels_record_invariants demoSeqs).1 demoRec (by decide)

/-- C2 counterexample: the claim says the pixel-to-normalized conversion is
applied iff `w` and `h` are **each** `> 1`. Here `h = 1/2 ≤ 1`, so the claim
demands the fields be used as-is; the code nevertheless converts (the source
condition is `bbox_w > 1 or bbox_h > 1`). -/
theorem processAnn_and_condition_counterexample :
    ¬ (1 < ((1 : ℚ)/2)) ∧
    processAnn 100 100 c2Ann = some (3, ⟨11/100, 41/400, 1/50, 1/200⟩) ∧
    processAnn 100 100 c2Ann ≠ some (3, ⟨3/10, 3/10, 2, 1/2⟩) := by
  refine ⟨by norm_num, ?_, ?_⟩ <;>
    norm_num [processAnn, c2Ann, c2Bbox, Box.mk.injEq]

/-- C2 (amended): the bbox payload is converted from absolute pixels to
normalized center-format iff `w > 1` **or** `h > 1`; when neither exceeds 1
the fields are used as-is. (Stated for every pair the code retains.) -/
theorem processAnn_conversion_rule (width height : ℚ) (a : RawAnn)
    (bbox : BBoxDict) (hb : a.bbox_image = some bbox) :
    ((1 < bbox.w.getD 0 ∨ 1 < bbox.h.getD 0) →
      ∀ p ∈ processAnn width height a,
        p = (a.category_id,
          ⟨(bbox.x.getD 0 + bbox.w.getD 0 / 2) / width,
           (bbox.y.getD 0 + bbox.h.getD 0 / 2) / height,
           bbox.w.getD 0 / width, bbox.h.getD 0 / height⟩)) ∧
    (bbox.w.getD 0 ≤ 1 → bbox.h.getD 0 ≤ 1 →
      ∀ p ∈ processAnn width height a,
        p = (a.category_id,
          ⟨bbox.x_center.getD 0, bbox.y_center.getD 0,
           bbox.w.getD 0, bbox.h.getD 0⟩)) := by
  constructor
  · intro hcond p hp
    simp only [processAnn, hb] at hp
    rw [if_pos hcond] at hp
    split at hp
    · cases hp
    · simpa using hp.symm
  · intro hw hh p hp
    simp only [processAnn, hb] at hp
    split at hp
    · next hcond =>
      rcases hcond with h1 | h1
      · exact absurd h1 (not_lt.mpr hw)
      · exact absurd h1 (not_lt.mpr hh)
    · split at hp
      · cases hp
      · simpa using hp.symm

/-- Witness for C2: the conversion branch fires on the concrete annotation
`c2Ann` (whose `w = 2 > 1`), producing the converted pair. -/
theorem processAnn_conversion_rule_witness :
    ((3 : ℤ), Box.mk (11/100) (41/400) (1/50) (1/200)) =
      (c2Ann.category_id,
        ⟨(c2Bbox.x.getD 0 + c2Bbox.w.getD 0 / 2) / 100,
         (c2Bbox.y.getD 0 + c2Bbox.h.getD 0 / 2) / 100,
         c2Bbox.w.getD 0 / 100, c2Bbox.h.getD 0 / 100⟩) :=
  (processAnn_conversion_rule 100 100 c2Ann c2Bbox rfl).1
    (by norm_num [c2Bbox])
    ((3 : ℤ), Box.mk (11/100) (41/400) (1/50) (1/200))
    (by norm_num [processAnn, c2Ann, c2Bbox, Option.mem_def, Prod.mk.injEq,
      Box.mk.injEq])

/-- C5: for a box given in absolute pixel form (`w > 1 or h > 1`, both
positive) on a frame of positive width `W` and height `H`, the
`cache_labels` pixel-to-normalized conversion followed by the `to_coco`
normalized-to-absolute conversion reproduces the original `(x, y, w, h)`
exactly over `ℚ`. -/
theorem pixel_roundtrip (i c : ℤ) (px py w h W H : ℚ)
    (hW : 0 < W) (hH : 0 < H) (hconv : 1 < w ∨ 1 < h)
    (hw : 0 < w) (hh : 0 < h) :
    ∃ b : Box,
      processAnn W H ⟨i, c, some ⟨none, none, some px, some py, some w, some h⟩⟩
        = some (c, b) ∧
      cocoBboxAbs H W true b = (px, py, w, h) := by
  refine ⟨⟨(px + w/2)/W, (py + h/2)/H, w/W, h/H⟩, ?_, ?_⟩
  · simp only [processAnn, Option.getD_some, Option.getD_none]
    rw [if_pos hconv]
    rw [if_neg (by push_neg
                   exact ⟨div_pos hw hW, div_pos hh hH⟩)]
  · simp only [cocoBboxAbs, if_pos rfl]
    refine Prod.ext ?_ (Prod.ext ?_ (Prod.ext ?_ ?_)) <;>
      field_simp <;> ring

/-- Witness for C5: the round-trip at a concrete pixel box on a 1920×1080
frame. -/
theorem pixel_roundtrip_witness :
    ∃ b : Box,
      processAnn 1920 1080 ⟨1, 2, some ⟨none, none, some 10, some 20, some 30, some 40⟩⟩
        = some (2, b) ∧
      cocoBboxAbs 1080 1920 true b = (10, 20, 30, 40) :=
  pixel_roundtrip 1 2 10 20 30 40 1920 1080 (by norm_num) (by norm_num)
    (Or.inl (by norm_num)) (by norm_num) (by norm_num)

/-! ### Characterization of `to_coco` -/

theorem annsOfLabel_map_id (img_id : ℕ) (height width : ℚ) (normalized : Bool)
    (pairs : List (ℤ × Box)) : ∀ ann_id : ℕ,
    (annsOfLabel img_id ann_id height width normalized pairs).map CocoAnn.id =
      List.range' ann_id pairs.length := by
  induction pairs with
  | nil => intro ann_id; simp [annsOfLabel]
  | cons p rest ih =>
    intro ann_id
    obtain ⟨c, b⟩ := p
    simp only [annsOfLabel, List.map_cons, List.length_cons]
    rw [List.range'_succ, ih (ann_id + 1)]

theorem annsOfLabel_length (img_id ann_id : ℕ) (height width : ℚ)
    (normalized : Bool) (pairs : List (ℤ × Box)) :
    (annsOfLabel img_id ann_id height width normalized pairs).length =
      pairs.length := by
  have h := congrArg List.length (annsOfLabel_map_id img_id height width normalized pairs ann_id)
  simpa using h

theorem annsOfLabel_mem (img_id ann_id : ℕ) (height width : ℚ)
    (normalized : Bool) (pairs : List (ℤ × Box)) (a : CocoAnn)
    (ha : a ∈ annsOfLabel img_id ann_id height width normalized pairs) :
    a.iscrowd = 0 ∧ a.image_id = img_id ∧ ∃ p ∈ pairs,
      a.category_id = p.1 ∧ a.bbox = cocoBboxAbs height width normalized p.2 ∧
      a.area = (cocoBboxAbs height width normalized p.2).2.2.1 *
        (cocoBboxAbs height width normalized p.2).2.2.2 := by
  induction pairs generalizing ann_id with
  | nil => simp [annsOfLabel] at ha
  | cons p rest ih =>
    obtain ⟨c, b⟩ := p
    simp only [annsOfLabel, List.mem_cons] at ha
    rcases ha with ha | ha
    · subst ha
      exact ⟨rfl, rfl, (c, b), List.mem_cons_self _ _, rfl, rfl, rfl⟩
    · obtain ⟨h0, h1, q, hq, h2⟩ := ih (ann_id + 1) ha
      exact ⟨h0, h1, q, List.mem_cons_of_mem _ hq, h2⟩

theorem tocoLoop_image_ids (labels : List LabelRecord) : ∀ img_id ann_id : ℕ,
    ((tocoLoop img_id ann_id labels).1.map CocoImage.id =
      List.range' img_id labels.length) := by
  induction labels with
  | nil => intro img_id ann_id; simp [tocoLoop]
  | cons l rest ih =>
    intro img_id ann_id
    simp only [tocoLoop, List.map_cons, List.length_cons]
    rw [List.range'_succ, ih]

theorem totalAnns_cons (l : LabelRecord) (rest : List LabelRecord) :
    totalAnns (l :: rest) = (l.cls.zip l.bboxes).length + totalAnns rest := by
  simp [totalAnns]

theorem tocoLoop_ann_ids (labels : List LabelRecord) : ∀ img_id ann_id : ℕ,
    ((tocoLoop img_id ann_id labels).2.map CocoAnn.id =
      List.range' ann_id (totalAnns labels)) := by
  induction labels with
  | nil => intro img_id ann_id; simp [tocoLoop, totalAnns]
  | cons l rest ih =>
    intro img_id ann_id
    simp only [tocoLoop, List.map_append, totalAnns_cons]
    rw [annsOfLabel_map_id, ih, annsOfLabel_length]
    have h2 := List.range'_append ann_id (l.cls.zip l.bboxes).length (totalAnns rest) 1
    simp only [one_mul] at h2
    rw [h2, Nat.add_comm]

theorem tocoLoop_ann_mem (labels : List LabelRecord) : ∀ img_id ann_id : ℕ,
    ∀ a ∈ (tocoLoop img_id ann_id labels).2,
      a.iscrowd = 0 ∧ ∃ l ∈ labels, ∃ p ∈ l.cls.zip l.bboxes,
        a.category_id = p.1 ∧
        a.bbox = cocoBboxAbs l.shape.1 l.shape.2 l.normalized p.2 ∧
        a.area = (cocoBboxAbs l.shape.1 l.shape.2 l.normalized p.2).2.2.1 *
          (cocoBboxAbs l.shape.1 l.shape.2 l.normalized p.2).2.2.2 := by
  induction labels with
  | nil => intro img_id ann_id a ha; simp [tocoLoop] at ha
  | cons l rest ih =>
    intro img_id ann_id a ha
    simp only [tocoLoop, List.mem_append] at ha
    rcases ha with ha | ha
    · obtain ⟨h0, _, p, hp, h2⟩ := annsOfLabel_mem _ _ _ _ _ _ _ ha
      exact ⟨h0, l, List.mem_cons_self _ _, p, hp, h2⟩
    · obtain ⟨h0, l', hl', rest'⟩ := ih _ _ a ha
      exact ⟨h0, l', List.mem_cons_of_mem _ hl', rest'⟩

/-- C6: `to_coco` assigns image ids `1, 2, 3, …` in label-list order and
annotation ids `1, 2, 3, …` in traversal order; every annotation of a
normalized record carries the box converted by
`x = (x_c - w/2) * frame_width`, `y = (y_c - h/2) * frame_height`,
`w = w_n * frame_width`, `h = h_n * frame_height`, with `area = w * h` and
`iscrowd = 0`; and the successful `to_coco` output is exactly the
`tocoLoop 1 1` traversal of the labels `get_labels` returned. -/
theorem to_coco_numbering (labels : List LabelRecord)
    (hn : ∀ l ∈ labels, l.normalized = true) :
    ((tocoLoop 1 1 labels).1.map CocoImage.id = List.range' 1 labels.length) ∧
    ((tocoLoop 1 1 labels).2.map CocoAnn.id = List.range' 1 (totalAnns labels)) ∧
    (∀ a ∈ (tocoLoop 1 1 labels).2, a.iscrowd = 0 ∧
      ∃ l ∈ labels, ∃ p ∈ l.cls.zip l.bboxes,
        a.category_id = p.1 ∧
        a.bbox = ((p.2.x_c - p.2.w / 2) * l.shape.2, (p.2.y_c - p.2.h / 2) * l.shape.1,
                  p.2.w * l.shape.2, p.2.h * l.shape.1) ∧
        a.area = p.2.w * l.shape.2 * (p.2.h * l.shape.1)) ∧
    (∀ (names : List (ℤ × String)) (seqs : List SeqInput)
        (stored : Option CacheFile) (r : LabelsOk),
      get_labels seqs stored = .ok r →
      to_coco names seqs stored = .ok
        ⟨names.map (fun p => ⟨p.1, p.2⟩),
         (tocoLoop 1 1 r.labels).1, (tocoLoop 1 1 r.labels).2⟩) := by
  refine ⟨tocoLoop_image_ids labels 1 1, tocoLoop_ann_ids labels 1 1, ?_, ?_⟩
  · intro a ha
    obtain ⟨h0, l, hl, p, hp, h1, h2, h3⟩ := tocoLoop_ann_mem labels 1 1 a ha
    refine ⟨h0, l, hl, p, hp, h1, ?_, ?_⟩
    · rw [h2, cocoBboxAbs, if_pos (by rw [hn l hl])]
    · rw [h3, cocoBboxAbs, if_pos (by rw [hn l hl])]
  · intro names seqs stored r hok
    simp [to_coco, hok]

/-- Witness for C6: the numbering and formulas at the concrete one-record
label list of the demo split. -/
theorem to_coco_numbering_witness :
    ((tocoLoop 1 1 [demoRec]).1.map CocoImage.id =
      List.range' 1 [demoRec].length) ∧
    ((tocoLoop 1 1 [demoRec]).2.map CocoAnn.id =
      List.range' 1 (totalAnns [demoRec])) := by
  have h := to_coco_numbering [demoRec] (by intro l hl; simp at hl; rw [hl]; rfl)
  exact ⟨h.1, h.2.1⟩

/-- Inversion of a successful `get_labels` call: the labels are the
load-or-build result and are non-empty. -/
theorem get_labels_ok_inv (seqs : List SeqInput) (stored : Option CacheFile)
    (r : LabelsOk) (h : get_labels seqs stored = .ok r) :
    r.labels = (loadOrBuild seqs stored).1.labels ∧ r.labels ≠ [] := by
  simp only [get_labels] at h
  split at h
  · cases h
  · next hne =>
    cases h
    exact ⟨rfl, by simpa [List.isEmpty_iff] using hne⟩

/-- C9 counterexample: on a split whose load-or-build label list is empty,
the claim says `visualize_sample` returns no result with a warning and never
raises; in the code the inner `get_labels` call raises `RuntimeError` first
(the `if not labels` guard on line 396 is unreachable), and the error
propagates out of `visualize_sample`. -/
theorem visualize_sample_empty_raises :
    visualize_sample [] none (fun _ => true) 0 none =
      .error "No valid images found" ∧
    visualize_sample [] none (fun _ => true) 0 none ≠ .ok none := by
  have h : visualize_sample [] none (fun _ => true) 0 none =
      .error "No valid images found" := rfl
  refine ⟨h, ?_⟩
  rw [h]
  intro hfalse
  cases hfalse

/-- C9 (amended): `visualize_sample` selects the label at position
`index % len(labels)` — a valid position for every `index` — and returns
`none` when the referenced image cannot be decoded; but when the label list
after load-or-build is empty it does not return `none` with a warning:
the inner `get_labels` raises and the exception propagates. -/
theorem visualize_sample_behavior (seqs : List SeqInput)
    (stored : Option CacheFile) (decode : String → Bool) (index : ℤ)
    (save_path : Option String) :
    ((loadOrBuild seqs stored).1.labels = [] →
      visualize_sample seqs stored decode index save_path =
        .error "No valid images found") ∧
    (∀ r, get_labels seqs stored = .ok r →
      (index.emod r.labels.length).toNat < r.labels.length ∧
      visualize_sample seqs stored decode index save_path =
        .ok (if decode (r.labels.getD (index.emod r.labels.length).toNat default).im_file
             then some (save_path.getD (with_vis_suffix
               (r.labels.getD (index.emod r.labels.length).toNat default).im_file))
             else none)) := by
  constructor
  · intro h
    have herr : get_labels seqs stored = .error "No valid images found" := by
      unfold get_labels
      simp [h]
    unfold visualize_sample
    rw [herr]
  · intro r hok
    have hinv := get_labels_ok_inv seqs stored r hok
    have hlen : 0 < r.labels.length := List.length_pos.mpr hinv.2
    have hmod : (index.emod r.labels.length).toNat < r.labels.length := by
      have h1 : 0 ≤ index.emod r.labels.length :=
        Int.emod_nonneg index (by exact_mod_cast hlen.ne')
      have h2 : index.emod r.labels.length < r.labels.length :=
        Int.emod_lt_of_pos index (by exact_mod_cast hlen)
      omega
    refine ⟨hmod, ?_⟩
    unfold visualize_sample
    rw [hok]
    have hemp : r.labels.isEmpty = false := by
      simpa [List.isEmpty_iff] using hinv.2
    simp only [hemp, Bool.false_eq_true, if_false]
    exact (apply_ite Except.ok _ _ _).symm

/-- Witness for C9: on the demo split (one label), index 5 wraps to the
valid position 0. -/
theorem visualize_sample_behavior_witness :
    ((5 : ℤ).emod (([demoRec] : List LabelRecord)).length).toNat <
      (([demoRec] : List LabelRecord)).length :=
  ((visualize_sample_behavior demoSeqs none (fun _ => true) 5 none).2
    ⟨[demoRec], ["t/SEQ-A/img1/1.jpg"], false⟩ rfl).1

/-! ### Determinism of `get_img_files` -/

instance : IsTotal String strLe :=
  ⟨fun s t => le_total s.data t.data⟩

instance : IsTrans String strLe :=
  ⟨fun _ _ _ h1 h2 => le_trans h1 h2⟩

instance : IsAntisymm String strLe :=
  ⟨fun a b h1 h2 => by
    cases a; cases b
    exact congrArg String.mk (le_antisymm h1 h2)⟩

/-- Sorting by Python string order is invariant under permutation of the
input (`sorted` of the same multiset of strings is unique). -/
theorem sortedStrings_eq_of_perm (l1 l2 : List String) (hp : l1.Perm l2) :
    List.insertionSort strLe l1 = List.insertionSort strLe l2 :=
  List.eq_of_perm_of_sorted
    (((List.perm_insertionSort strLe l1).trans hp).trans
      (List.perm_insertionSort strLe l2).symm)
    (List.sorted_insertionSort strLe l1) (List.sorted_insertionSort strLe l2)

/-- Two permuted lists with equal key images and no duplicate keys are
equal. -/
theorem eq_of_perm_of_map_eq_of_nodup {α β : Type} (key : α → β)
    (l1 : List α) : ∀ l2 : List α, l1.Perm l2 → l1.map key = l2.map key →
    (l1.map key).Nodup → l1 = l2 := by
  induction l1 with
  | nil =>
    intro l2 hp _ _
    exact hp.nil_eq
  | cons a t1 ih =>
    intro l2 hp hmap hnd
    cases l2 with
    | nil => exact absurd hp.symm.nil_eq (by simp)
    | cons b t2 =>
      simp only [List.map_cons, List.cons.injEq] at hmap
      obtain ⟨hkey, hmapt⟩ := hmap
      simp only [List.map_cons, List.nodup_cons] at hnd
      obtain ⟨hnotin, hndt⟩ := hnd
      have hab : a = b := by
        rcases List.mem_cons.mp (hp.mem_iff.mp (List.mem_cons_self a t1)) with h | h
        · exact h
        · exact absurd (hmapt ▸ List.mem_map_of_mem key h) hnotin
      subst hab
      rw [ih t2 hp.cons_inv hmapt hndt]

/-- Sorting sequence directories by name is invariant under permutation when
the names are distinct (directory names within one directory always are). -/
theorem sortDirs_eq_of_perm (l1 l2 : List SeqDirFS) (hp : l1.Perm l2)
    (hnd : (l1.map SeqDirFS.name).Nodup) :
    List.insertionSort (fun a b => strLe a.name b.name) l1 =
      List.insertionSort (fun a b => strLe a.name b.name) l2 := by
  haveI : IsTotal SeqDirFS (fun a b => strLe a.name b.name) :=
    ⟨fun a b => IsTotal.total (r := strLe) a.name b.name⟩
  haveI : IsTrans SeqDirFS (fun a b => strLe a.name b.name) :=
    ⟨fun a b c h1 h2 => IsTrans.trans (r := strLe) _ _ _ h1 h2⟩
  apply eq_of_perm_of_map_eq_of_nodup SeqDirFS.name
  · exact ((List.perm_insertionSort _ l1).trans hp).trans
      (List.perm_insertionSort _ l2).symm
  · apply List.eq_of_perm_of_sorted (r := strLe)
    · exact (((List.perm_insertionSort _ l1).map _).trans (hp.map _)).trans
        ((List.perm_insertionSort _ l2).map _).symm
    · exact List.pairwise_map.mpr (List.sorted_insertionSort _ l1)
    · exact List.pairwise_map.mpr (List.sorted_insertionSort _ l2)
  · exact (((List.perm_insertionSort _ l1).map SeqDirFS.name).nodup_iff).mpr hnd

/-- Equivalent directories contribute the same files. -/
theorem dirFiles_eq_of_equiv (root : String) (d1 d2 : SeqDirFS)
    (h : DirEquiv d1 d2) : dirFiles root d1 = dirFiles root d2 := by
  obtain ⟨hname, hcase⟩ := h
  rcases hcase with ⟨h1, h2⟩ | ⟨a, b, h1, h2, hperm⟩
  · simp [dirFiles, h1, h2]
  · simp only [dirFiles, h1, h2]
    rw [hname, sortedStrings_eq_of_perm _ _ (hperm.filter _)]

theorem orderedInsert_forall2 (a a' : SeqDirFS) (ha : DirEquiv a a')
    (l l' : List SeqDirFS) (hf : List.Forall₂ DirEquiv l l') :
    List.Forall₂ DirEquiv
      (l.orderedInsert (fun x y => strLe x.name y.name) a)
      (l'.orderedInsert (fun x y => strLe x.name y.name) a') := by
  induction hf with
  | nil =>
    simp only [List.orderedInsert]
    exact List.Forall₂.cons ha List.Forall₂.nil
  | cons hb ht ih =>
    rename_i b b' t t'
    by_cases h : strLe a.name b.name
    · have h' : strLe a'.name b'.name := by rw [← ha.1, ← hb.1]; exact h
      simp only [List.orderedInsert, if_pos h, if_pos h']
      exact .cons ha (.cons hb ht)
    · have h' : ¬ strLe a'.name b'.name := by rw [← ha.1, ← hb.1]; exact h
      simp only [List.orderedInsert, if_neg h, if_neg h']
      exact .cons hb ih

theorem insertionSort_forall2 (l l' : List SeqDirFS)
    (hf : List.Forall₂ DirEquiv l l') :
    List.Forall₂ DirEquiv
      (List.insertionSort (fun x y => strLe x.name y.name) l)
      (List.insertionSort (fun x y => strLe x.name y.name) l') := by
  induction hf with
  | nil => exact .nil
  | cons ha ht ih =>
    simp only [List.insertionSort]
    exact orderedInsert_forall2 _ _ ha _ _ ih

theorem flatMap_dirFiles_eq (root : String) (l l' : List SeqDirFS)
    (hf : List.Forall₂ DirEquiv l l') :
    l.flatMap (dirFiles root) = l'.flatMap (dirFiles root) := by
  induction hf with
  | nil => rfl
  | cons ha ht ih =>
    rename_i d d' t t'
    simp only [List.flatMap_cons, ih, dirFiles_eq_of_equiv root d d' ha]

/-- C8: `get_img_files` returns the concatenation, over subdirectories
sorted by name, of the per-sequence `img1/*.jpg` files sorted by filename —
so for a fixed directory tree (same subdirectories with distinct names, same
entry multisets, any filesystem enumeration order) the result is identical
across runs; and an empty result sets the warning flag rather than failing
(the function is total and its flag equals emptiness of the list). -/
theorem get_img_files_deterministic (t1 t2 : SplitFS)
    (hequiv : SplitEquiv t1 t2)
    (hnd : (t1.dirs.map SeqDirFS.name).Nodup) :
    get_img_files t1 = get_img_files t2 ∧
    (get_img_files t1).2 = (get_img_files t1).1.isEmpty := by
  obtain ⟨hpath, mid, hp, hf⟩ := hequiv
  have hdirs1 : List.insertionSort (fun a b => strLe a.name b.name) t1.dirs =
      List.insertionSort (fun a b => strLe a.name b.name) mid :=
    sortDirs_eq_of_perm _ _ hp hnd
  have hsortf := insertionSort_forall2 _ _ hf
  have hlist : (get_img_files t1).1 = (get_img_files t2).1 := by
    simp only [get_img_files]
    rw [hdirs1, hpath]
    exact flatMap_dirFiles_eq _ _ _ hsortf
  refine ⟨Prod.ext hlist ?_, rfl⟩
  show (get_img_files t1).1.isEmpty = (get_img_files t2).1.isEmpty
  rw [hlist]

/-- Witness for C8: two filesystem enumeration orders of the same two-sequence
tree yield identical scanner output. -/
theorem get_img_files_deterministic_witness :
    get_img_files fsA = get_img_files fsB :=
  (get_img_files_deterministic fsA fsB
    ⟨rfl, [⟨"S1", some ["x.jpg", "readme.txt"]⟩, ⟨"S2", some ["b.jpg", "a.jpg"]⟩],
      List.Perm.swap _ _ _,
      .cons ⟨rfl, .inr ⟨_, _, rfl, rfl, List.Perm.swap _ _ _⟩⟩
        (.cons ⟨rfl, .inr ⟨_, _, rfl, rfl, List.Perm.swap _ _ _⟩⟩ .nil)⟩
    (by decide)).1

end SoccerNet
